import Mathlib

/-
  Verification development for the IdyDB sparse-cell container
  (sources: idyicyanere-vscode/native/idydb-addon/idydb/impl/db.cpp, the
  authoritative fork, and idyicyanere-terminal-(experimental)/src/db.c where
  the two forks differ).

  Modelling conventions:
  * The working stream is modelled by its parse: a list of partitions, each a
    skip amount plus a list of segments (row position + value), exactly the
    on-disk layout of section 6 of the format; `dbBytes` is the serializer
    written from the insert code's byte layout, so byte-level facts are
    statements about `dbBytes`.
  * Machine scalars are little-endian bit patterns (Nat): i32 and f32 payloads
    are 4-byte patterns, strings are byte lists without the trailing NUL,
    vectors keep the on-disk dims field separate from the component list so
    that malformed files are representable.  Bitwise equality is Nat equality.
  * The build is the BIG sizing mode (db.h line 59): column and row maxima
    0xFFFF, row-count range checks compiled out, and the handler's unsafe
    flag at its default false, streaming (non-mmap) reads.
  * IEEE float comparison and kNN float scoring are kept abstract (parameters
    of the definitions): none of the claims depends on float semantics, only
    on which cells are compared or scored.
-/

set_option linter.unusedVariables false

namespace IdyDB

/-- Column position maximum for the BIG sizing mode (db.cpp 168-173). -/
def IDYDB_COLUMN_POSITION_MAX : Nat := 0xFFFF

/-- Row position maximum for the BIG sizing mode (db.cpp 168-173). -/
def IDYDB_ROW_POSITION_MAX : Nat := 0xFFFF

/-- Maximum vector dimension count (db.cpp 138). -/
def IDYDB_MAX_VECTOR_DIM : Nat := 16383

/-- Maximum stored char length: 0xFFFF - sizeof(short) (db.cpp 137). -/
def IDYDB_MAX_CHAR_LENGTH : Nat := 0xFFFF - 2

/-- Value-type code for null (db.h 41). -/
def IDYDB_NULL : Nat := 10

/-- Value-type code for i32 (db.h 42). -/
def IDYDB_INTEGER : Nat := 11

/-- Value-type code for f32 (db.h 43). -/
def IDYDB_FLOAT : Nat := 12

/-- Value-type code for strings (db.h 44). -/
def IDYDB_CHAR : Nat := 13

/-- Value-type code for booleans (db.h 45). -/
def IDYDB_BOOL : Nat := 14

/-- Value-type code for vectors (db.h 46). -/
def IDYDB_VECTOR : Nat := 15

/-- Cell value. Scalars are little-endian bit patterns; `vchar` carries the
string bytes without the trailing NUL; `vvec` carries the on-disk dims field
and the 4-byte component patterns separately (a malformed file may have an
inconsistent dims field). -/
inductive Val where
  | vint (bits : Nat)
  | vfloat (bits : Nat)
  | vchar (s : List Nat)
  | vbool (b : Bool)
  | vvec (dims : Nat) (comps : List Nat)
deriving DecidableEq, Repr

/-- On-disk segment: `row_position: u16` (0-based) plus the tagged value
(db.cpp format comment and section 6 of the spec). -/
structure Segment where
  rowPos : Nat
  val : Val
deriving DecidableEq, Repr

/-- On-disk partition: `skip_amount: u16` plus the segment list
(`row_count_minus_one` is implicit as the list length minus one). -/
structure Partition where
  skip : Nat
  segs : List Segment
deriving DecidableEq, Repr

/-- The working stream contents, parsed: a contiguous sequence of partitions. -/
abbrev DB := List Partition

/-- Absolute column ids of the partitions: the running sum of
`skip_amount + 1` seeded at `prev` (spec section 3, partition invariant). -/
def colIdsFrom : Nat → DB → List Nat
  | _, [] => []
  | prev, p :: rest => (prev + p.skip + 1) :: colIdsFrom (prev + p.skip + 1) rest

/-- Absolute column ids of a database, seeded at zero. -/
def dbCols (db : DB) : List Nat := colIdsFrom 0 db

/-- API row ids (`row_position + 1`) of every segment stored under absolute
column id `c`, in scan order. -/
def rowsOfColFrom : Nat → DB → Nat → List Nat
  | _, [], _ => []
  | prev, p :: rest, c =>
      (if prev + p.skip + 1 = c then p.segs.map (fun sg => sg.rowPos + 1) else [])
        ++ rowsOfColFrom (prev + p.skip + 1) rest c

/-- API row ids stored under absolute column id `c`, seeded at zero. -/
def rowsOfCol (db : DB) (c : Nat) : List Nat := rowsOfColFrom 0 db c

/-- Little-endian 2-byte encoding of a u16 value. -/
def u16le (n : Nat) : List Nat := [n % 256, n / 256 % 256]

/-- Little-endian 4-byte encoding of a u32 bit pattern. -/
def u32le (n : Nat) : List Nat :=
  [n % 256, n / 256 % 256, n / 65536 % 256, n / 16777216 % 256]

/-- On-disk type tag of a value (db.cpp 146-151; booleans fold their payload
into the tag). -/
def tagOf : Val → Nat
  | .vint _ => 1
  | .vfloat _ => 2
  | .vchar _ => 3
  | .vbool true => 4
  | .vbool false => 5
  | .vvec _ _ => 6

/-- Payload bytes following the type tag, as written by `idydb_insert_at`
(db.cpp 2645-2712): CHAR writes a u16 length field holding `strlen` then the
`strlen+1` bytes including the NUL; VECTOR writes a u16 dims field then
`4*dims` bytes. -/
def payloadBytes : Val → List Nat
  | .vint b => u32le b
  | .vfloat b => u32le b
  | .vchar s => u16le s.length ++ s ++ [0]
  | .vbool _ => []
  | .vvec d c => u16le d ++ (c.map u32le).flatten

/-- Serialized segment: row position, type tag, payload. -/
def segBytes (sg : Segment) : List Nat :=
  u16le sg.rowPos ++ [tagOf sg.val] ++ payloadBytes sg.val

/-- Serialized partition: skip amount, row count minus one, segments. -/
def partBytes (p : Partition) : List Nat :=
  u16le p.skip ++ u16le (p.segs.length - 1) ++ (p.segs.map segBytes).flatten

/-- Serialized database file: concatenation of all partitions, no padding. -/
def dbBytes (db : DB) : List Nat := (db.map partBytes).flatten

/-- Result of `idydb_read_at`: the retrieved value, a null lookup, or the
range/corrupt/error codes (db.h 32-41). -/
inductive ReadRes where
  | done (v : Val)
  | null
  | range
  | corrupt
  | error
deriving DecidableEq, Repr

/-- Bytes of a stored string up to the first NUL, as `strlen`/`fread` into
`char_value` see it (db.cpp 1841-1860). -/
def cstr (s : List Nat) : List Nat := s.takeWhile (fun b => b != 0)

/-- Segment walk of `idydb_read_at` inside the target column (db.cpp
1721-1935): stored CHAR lengths and VECTOR dims are validated on every
segment walked (the length checks at 1832-1837 and 1890-1894 run whether or
not the segment is the target); a matching row returns its decoded value
(`some`), a mismatch keeps scanning, and exhausting the partition returns
`none` so that the partition walk continues. A stored string that decodes to
the empty C string is an error (db.cpp 1856-1860). -/
def readScanSegs : List Segment → Nat → Option ReadRes
  | [], _ => none
  | sg :: rest, r0 =>
    match sg.val with
    | .vchar s =>
        if s.length + 1 > IDYDB_MAX_CHAR_LENGTH then some .error
        else if sg.rowPos = r0 then
          if cstr s = [] then some .error else some (.done (.vchar (cstr s)))
        else readScanSegs rest r0
    | .vvec d c =>
        if d = 0 ∨ d > IDYDB_MAX_VECTOR_DIM then some .error
        else if sg.rowPos = r0 then some (.done (.vvec d c))
        else readScanSegs rest r0
    | v => if sg.rowPos = r0 then some (.done v) else readScanSegs rest r0

/-- Segment walk of `idydb_read_at` over a partition of a smaller column:
values are skipped but the CHAR/VECTOR length validation still runs. -/
def readSkipSegs : List Segment → Option ReadRes
  | [] => none
  | sg :: rest =>
    match sg.val with
    | .vchar s =>
        if s.length + 1 > IDYDB_MAX_CHAR_LENGTH then some .error else readSkipSegs rest
    | .vvec d _ =>
        if d = 0 ∨ d > IDYDB_MAX_VECTOR_DIM then some .error else readSkipSegs rest
    | _ => readSkipSegs rest

/-- Partition walk of `idydb_read_at` (db.cpp 1653-1719): the running column
id is advanced by `skip_amount + 1`; exceeding the column maximum before the
`+1` is a range error; passing the target column returns null; the target
column scans its segments and, when the row is not found there, scanning
continues (the next partition header, if any, ends it with null). -/
def readScanParts : Nat → DB → Nat → Nat → ReadRes
  | _, [], _, _ => .null
  | prev, p :: rest, col, r0 =>
    if prev + p.skip > IDYDB_COLUMN_POSITION_MAX then .range
    else if col < prev + p.skip + 1 then .null
    else if col = prev + p.skip + 1 then
      match readScanSegs p.segs r0 with
      | some res => res
      | none => readScanParts (prev + p.skip + 1) rest col r0
    else
      match readSkipSegs p.segs with
      | some res => res
      | none => readScanParts (prev + p.skip + 1) rest col r0

/-- Reads the cell at API coordinates `(col, row)` (db.cpp `idydb_read_at`,
1613-1943, non-unsafe branch of the range checks at 1625-1645). -/
def idydb_read_at (db : DB) (col row : Nat) : ReadRes :=
  if col = 0 ∨ col - 1 > IDYDB_COLUMN_POSITION_MAX
      ∨ row = 0 ∨ row - 1 > IDYDB_ROW_POSITION_MAX then .range
  else readScanParts 0 db col (row - 1)

/-- Return code of `idydb_insert_at`. -/
inductive InsCode where
  | done
  | range
  | corrupt
  | error
  | readonly
deriving DecidableEq, Repr

/-- Outcome of `idydb_insert_at`: the return code, the resulting working
stream (unchanged on the error paths reachable in the pure model), and the
staged value register as left on return (`none` when `idydb_clear_values`
ran, i.e. the register holds null). -/
structure InsOut where
  code : InsCode
  db : DB
  reg : Option Val
deriving DecidableEq, Repr

/-- Segment scan of the insert structure walk inside the target column
(db.cpp 2216-2298): stop at the first segment whose row equals the target
(cell present, with its stored value) or exceeds it (cell absent; the
insertion point); otherwise walk on. -/
inductive SegHit where
  | found (v : Val)
  | absent
deriving DecidableEq, Repr

/-- Performs the segment scan described at `SegHit`. -/
def segScan : List Segment → Nat → SegHit
  | [], _ => .absent
  | sg :: rest, r0 =>
    if sg.rowPos = r0 then .found sg.val
    else if r0 < sg.rowPos then .absent
    else segScan rest r0

/-- Removes the first segment stored at row position `r0`. -/
def segRemove : List Segment → Nat → List Segment
  | [], _ => []
  | sg :: rest, r0 => if sg.rowPos = r0 then rest else sg :: segRemove rest r0

/-- Replaces the value of the first segment stored at row position `r0`
(the in-place update of db.cpp 2528-2529 and 2635-2712). -/
def segReplace : List Segment → Nat → Val → List Segment
  | [], _, _ => []
  | sg :: rest, r0, v =>
      if sg.rowPos = r0 then ⟨r0, v⟩ :: rest else sg :: segReplace rest r0 v

/-- Inserts a new segment in row order: before the first segment with a
larger row position (db.cpp 2284-2298 pick the insertion point). -/
def segInsert : List Segment → Nat → Val → List Segment
  | [], r0, v => [⟨r0, v⟩]
  | sg :: rest, r0, v =>
      if r0 < sg.rowPos then ⟨r0, v⟩ :: sg :: rest else sg :: segInsert rest r0 v

/-- Mutation of the target partition once the target cell was found: null
stage removes the segment, and when it was the only one the partition is
removed and the following partition's skip amount grows by the removed
partition's `skip + 1` (db.cpp 2595-2610: `skip_amount[0] +=
skip_amount[1] + 1`); a non-null stage updates the value in place. Every
completed mutation clears the staged register (db.cpp 2726). -/
def applyFound (stage : Option Val) (p : Partition) (rest : DB) (r0 : Nat) : InsOut :=
  match stage with
  | none =>
      let segs2 := segRemove p.segs r0
      if segs2 = [] then
        match rest with
        | [] => ⟨.done, [], none⟩
        | q :: qs => ⟨.done, ⟨q.skip + p.skip + 1, q.segs⟩ :: qs, none⟩
      else ⟨.done, ⟨p.skip, segs2⟩ :: rest, none⟩
  | some v => ⟨.done, ⟨p.skip, segReplace p.segs r0 v⟩ :: rest, none⟩

/-- Structure walk plus mutation of `idydb_insert_at` (db.cpp 2126-2744),
carrying the running absolute column id `prev` of the previous partition:

* end of file with every column smaller: a null stage is a no-op (db.cpp
  2367-2368, no bytes written), a value appends a new partition with
  `skip = col - prev - 1` (db.cpp 2545-2548);
* a partition past the target column: a null stage is a no-op; a value
  splices a new partition before it, with `skip = col - prev - 1`, and
  rewrites the following partition's skip to `old - (new + 1)` (db.cpp
  2572-2592, including the `skip_amount[1] == 1` special case at 2583);
* the target column: the target cell's stored VECTOR dims field is probed
  and `dims == 0 || dims > IDYDB_MAX_VECTOR_DIM` returns the range code
  without clearing the staged register (db.cpp 2250-2262 return with no
  `idydb_clear_values`, unlike every other error return of the function);
  otherwise the found/absent cases mutate per `applyFound`/`segInsert`;
* a smaller column: walk on.

Exceeding the column maximum while accumulating skip amounts is a range
error with the register cleared (db.cpp 2175-2187). -/
def insertWalk (stage : Option Val) (col r0 : Nat) : Nat → DB → InsOut
  | prev, [] =>
      match stage with
      | none => ⟨.done, [], none⟩
      | some v => ⟨.done, [⟨col - prev - 1, [⟨r0, v⟩]⟩], none⟩
  | prev, p :: rest =>
      if prev + p.skip > IDYDB_COLUMN_POSITION_MAX then ⟨.range, p :: rest, none⟩
      else if col < prev + p.skip + 1 then
        match stage with
        | none => ⟨.done, p :: rest, none⟩
        | some v =>
            let newSkip := col - prev - 1
            let nextSkip := if p.skip = 1 then 0 else p.skip - (newSkip + 1)
            ⟨.done, ⟨newSkip, [⟨r0, v⟩]⟩ :: ⟨nextSkip, p.segs⟩ :: rest, none⟩
      else if col = prev + p.skip + 1 then
        match segScan p.segs r0 with
        | .found (.vvec d c) =>
            if d = 0 ∨ d > IDYDB_MAX_VECTOR_DIM then ⟨.range, p :: rest, stage⟩
            else applyFound stage p rest r0
        | .found _ => applyFound stage p rest r0
        | .absent =>
            match stage with
            | none => ⟨.done, p :: rest, none⟩
            | some v => ⟨.done, ⟨p.skip, segInsert p.segs r0 v⟩ :: rest, none⟩
      else
        let out := insertWalk stage col r0 (prev + p.skip + 1) rest
        ⟨out.code, p :: out.db, out.reg⟩

/-- Normalization of the staged value at the head of `idydb_insert_at`: a
staged string is reduced to its C-string bytes and, when that is empty, the
register is cleared so the operation becomes a deletion (db.cpp 2092-2100). -/
def normStage : Option Val → Option Val
  | some (.vchar s) => if cstr s = [] then none else some (.vchar (cstr s))
  | st => st

/-- Guard on the staged vector dims at the head of `idydb_insert_at` (db.cpp
2104-2109): staged dims of 0 or above the maximum are rejected. -/
def stageDimsBad : Option Val → Prop
  | some (.vvec d _) => d = 0 ∨ d > IDYDB_MAX_VECTOR_DIM
  | _ => False

instance (st : Option Val) : Decidable (stageDimsBad st) := by
  unfold stageDimsBad
  cases st with
  | none => exact inferInstanceAs (Decidable False)
  | some v => cases v <;> first
      | exact inferInstanceAs (Decidable False)
      | exact inferInstanceAs (Decidable (_ ∨ _))

/-- Consumes the staged register and writes it at `(col, row)` (db.cpp
`idydb_insert_at`, 1953-2745, writable non-unsafe handler): range checks
clear the register (db.cpp 1970-1991); a staged empty string becomes a null
stage (db.cpp 2092-2100); staged vector dims outside `[1, 16383]` error with
the register cleared (db.cpp 2104-2109); otherwise the structure walk
decides and performs the mutation. -/
def idydb_insert_at (db : DB) (stage : Option Val) (col row : Nat) : InsOut :=
  if col = 0 ∨ col - 1 > IDYDB_COLUMN_POSITION_MAX
      ∨ row = 0 ∨ row - 1 > IDYDB_ROW_POSITION_MAX then ⟨.range, db, none⟩
  else if stageDimsBad (normStage stage) then ⟨.error, db, none⟩
  else insertWalk (normStage stage) col (row - 1) 0 db

/-- Deletes a cell: resets the staged register to null and inserts
(db.cpp `idydb_delete`, 1579-1583). -/
def idydb_delete (db : DB) (col row : Nat) : InsOut :=
  idydb_insert_at db none col row

end IdyDB

namespace IdyDB

/-- Length field the terminal fork writes for a stored string: db.c 1091 sets
`input_size = strlen(char_value)`, 1107 adds `sizeof(short)`, and 1386 writes
`input_size - 1` as the on-disk u16 length field, which is `strlen + 1`. -/
def dbcTerm_char_len_field (s : List Nat) : Nat := (s.length + 2) - 1

/-- Payload bytes the terminal fork writes for a stored string: db.c 1725
writes `input_size_default = strlen` bytes of `char_value`, without the
trailing NUL. -/
def dbcTerm_char_payload (s : List Nat) : List Nat := s

/-- Payload byte count the terminal fork's reader consumes for a stored
string: db.c 918-923 reads the u16 length field into `response_length` and
adds 1 before reading that many payload bytes. -/
def dbcTerm_char_read_count (lenField : Nat) : Nat := lenField + 1

/-- Length field the vscode fork writes for a stored string: db.cpp
2382-2391, `strlen` (payload minus one). -/
def dbcVsc_char_len_field (s : List Nat) : Nat := s.length

/-- Payload bytes the vscode fork writes for a stored string: db.cpp 2092-2102
sizes the payload as `strlen + 1` and 2695-2702 writes that many bytes of
`char_value`, including the trailing NUL. -/
def dbcVsc_char_payload (s : List Nat) : List Nat := s ++ [0]

/-- Payload byte count the vscode fork's reader consumes for a stored string:
db.cpp 1820-1832, the u16 length field plus one. -/
def dbcVsc_char_read_count (lenField : Nat) : Nat := lenField + 1

/-- Byte string "hello". -/
def helloBytes : List Nat := [104, 101, 108, 108, 111]

/-- C1: string round-trip agreement of the on-disk length field, the payload
bytes written, and the bytes read back. At the concrete input "hello" the
terminal fork (db.c) writes length field 6 and only 5 payload bytes while its
own reader consumes `6 + 1 = 7` payload bytes, so writer and reader disagree
(extract of a freshly inserted string reads past the written payload and
fails); the vscode fork (db.cpp) writes length field 5 with 6 payload bytes,
its reader consumes exactly those 6 bytes, and the C string they decode to is
the inserted one. -/
theorem idydb_c1_char_len_field_mismatch :
    dbcTerm_char_len_field helloBytes = 6
      ∧ (dbcTerm_char_payload helloBytes).length = 5
      ∧ dbcTerm_char_read_count (dbcTerm_char_len_field helloBytes) = 7
      ∧ dbcTerm_char_read_count (dbcTerm_char_len_field helloBytes)
          ≠ (dbcTerm_char_payload helloBytes).length
      ∧ dbcVsc_char_read_count (dbcVsc_char_len_field helloBytes)
          = (dbcVsc_char_payload helloBytes).length
      ∧ cstr (dbcVsc_char_payload helloBytes) = helloBytes := by
  decide

/-- C8: evaluation of `idydb_insert_at` at the failing input. The working
stream holds a single cell at `(1, 1)` whose stored vector has a malformed
dims field of 0; an i32 value 5 is staged; the insert returns the range code
and the staged register still holds the value — the error return at db.cpp
2258-2262 (db.c 1253-1257) is not preceded by `idydb_clear_values`, unlike
every other error return of the function. -/
theorem idydb_c8_register_not_cleared :
    idydb_insert_at [⟨0, [⟨0, .vvec 0 []⟩]⟩] (some (.vint 5)) 1 1 =
      ⟨.range, [⟨0, [⟨0, .vvec 0 []⟩]⟩], some (.vint 5)⟩ := by
  decide

/-- The target-column segment walk of `idydb_read_at` never reports a null
lookup itself; null only arises from the partition walk. -/
theorem readScanSegs_ne_null (segs : List Segment) (r0 : Nat) :
    readScanSegs segs r0 ≠ some .null := by
  induction segs with
  | nil => simp [readScanSegs]
  | cons sg rest ih =>
    cases h : sg.val with
    | vchar s =>
        simp only [readScanSegs, h]
        split
        · simp
        · split
          · split <;> simp
          · exact ih
    | vvec d c =>
        simp only [readScanSegs, h]
        split
        · simp
        · split <;> simp [ih]
    | vint b => simp only [readScanSegs, h]; split <;> simp [ih]
    | vfloat b => simp only [readScanSegs, h]; split <;> simp [ih]
    | vbool b => simp only [readScanSegs, h]; split <;> simp [ih]

/-- The skipped-column segment walk of `idydb_read_at` never reports a null
lookup itself. -/
theorem readSkipSegs_ne_null (segs : List Segment) :
    readSkipSegs segs ≠ some .null := by
  induction segs with
  | nil => simp [readSkipSegs]
  | cons sg rest ih =>
    cases h : sg.val <;> simp only [readSkipSegs, h] <;> first
      | exact ih
      | (split <;> simp [ih])

/-- When the read walk exhausts the target partition without finding the row,
the insert structure walk over the same segments concludes the cell absent. -/
theorem readScanSegs_none_segScan (segs : List Segment) (r0 : Nat)
    (h : readScanSegs segs r0 = none) : segScan segs r0 = .absent := by
  induction segs with
  | nil => simp [segScan]
  | cons sg rest ih =>
    cases hv : sg.val with
    | vchar s =>
        simp only [readScanSegs, hv] at h
        split at h
        · exact absurd h (by simp)
        · split at h
          · split at h <;> exact absurd h (by simp)
          · rename_i hne
            simp only [segScan]
            rw [if_neg hne]
            split
            · rfl
            · exact ih h
    | vvec d c =>
        simp only [readScanSegs, hv] at h
        split at h
        · exact absurd h (by simp)
        · split at h
          · exact absurd h (by simp)
          · rename_i hne
            simp only [segScan]
            rw [if_neg hne]
            split
            · rfl
            · exact ih h
    | vint b =>
        simp only [readScanSegs, hv] at h
        split at h
        · exact absurd h (by simp)
        · rename_i hne
          simp only [segScan]
          rw [if_neg hne]
          split
          · rfl
          · exact ih h
    | vfloat b =>
        simp only [readScanSegs, hv] at h
        split at h
        · exact absurd h (by simp)
        · rename_i hne
          simp only [segScan]
          rw [if_neg hne]
          split
          · rfl
          · exact ih h
    | vbool b =>
        simp only [readScanSegs, hv] at h
        split at h
        · exact absurd h (by simp)
        · rename_i hne
          simp only [segScan]
          rw [if_neg hne]
          split
          · rfl
          · exact ih h

/-- When the read scan reports a null lookup, the insert structure walk with a
null stage takes a path that performs no mutation: the working stream and the
(already null) register are returned unchanged with the done code. -/
theorem readNull_insertWalk (parts : DB) (col r0 : Nat) : ∀ prev,
    readScanParts prev parts col r0 = .null →
    insertWalk none col r0 prev parts = ⟨.done, parts, none⟩ := by
  induction parts with
  | nil => intro prev _; rfl
  | cons p rest ih =>
    intro prev h
    simp only [readScanParts] at h
    simp only [insertWalk]
    split at h
    · exact absurd h (by simp)
    · rename_i hmax
      rw [if_neg hmax]
      split at h
      · rename_i hlt
        rw [if_pos hlt]
      · rename_i hlt
        rw [if_neg hlt]
        split at h
        · rename_i heq
          rw [if_pos heq]
          cases hs : readScanSegs p.segs r0 with
          | none =>
              rw [readScanSegs_none_segScan p.segs r0 hs]
          | some res =>
              rw [hs] at h
              cases res with
              | null => exact absurd hs (readScanSegs_ne_null p.segs r0)
              | done v => exact absurd h (by simp)
              | range => exact absurd h (by simp)
              | corrupt => exact absurd h (by simp)
              | error => exact absurd h (by simp)
        · rename_i heq
          rw [if_neg heq]
          cases hs : readSkipSegs p.segs with
          | none =>
              rw [hs] at h
              rw [ih (prev + p.skip + 1) h]
          | some res =>
              rw [hs] at h
              cases res with
              | null => exact absurd hs (readSkipSegs_ne_null p.segs)
              | done v => exact absurd h (by simp)
              | range => exact absurd h (by simp)
              | corrupt => exact absurd h (by simp)
              | error => exact absurd h (by simp)

/-- C7: deleting an already-absent cell is a complete no-op. If
`idydb_read_at` reports a null lookup at `(col, row)`, then staging null and
calling `idydb_insert_at` (which is exactly `idydb_delete`) returns the done
code, leaves the register null, and the working stream — hence the file size
and every byte of the serialized file — is unchanged. -/
theorem idydb_c7_delete_absent_noop (db : DB) (col row : Nat)
    (h : idydb_read_at db col row = .null) :
    idydb_delete db col row = ⟨.done, db, none⟩
      ∧ dbBytes (idydb_delete db col row).db = dbBytes db
      ∧ (dbBytes (idydb_delete db col row).db).length = (dbBytes db).length := by
  have hmain : idydb_delete db col row = ⟨.done, db, none⟩ := by
    unfold idydb_delete idydb_insert_at
    unfold idydb_read_at at h
    split at h
    · exact absurd h (by simp)
    · rename_i hrange
      rw [if_neg hrange]
      exact readNull_insertWalk db col (row - 1) 0 h
  refine ⟨hmain, ?_, ?_⟩ <;> rw [hmain]

/-- Witness for C7 at a concrete input: the empty database and cell (1, 1). -/
theorem idydb_c7_witness :
    idydb_delete ([] : DB) 1 1 = ⟨.done, [], none⟩
      ∧ dbBytes (idydb_delete ([] : DB) 1 1).db = dbBytes ([] : DB)
      ∧ (dbBytes (idydb_delete ([] : DB) 1 1).db).length = (dbBytes ([] : DB)).length :=
  idydb_c7_delete_absent_noop [] 1 1 (by decide)

end IdyDB

namespace IdyDB

/-- Every absolute column id recovered by the running sum strictly exceeds
the seed. -/
theorem mem_colIdsFrom_gt : ∀ (db : DB) (prev c : Nat), c ∈ colIdsFrom prev db → prev < c := by
  intro db
  induction db with
  | nil => intro prev c h; simp [colIdsFrom] at h
  | cons p rest ih =>
    intro prev c h
    simp only [colIdsFrom, List.mem_cons] at h
    rcases h with h | h
    · omega
    · have := ih (prev + p.skip + 1) c h
      omega

/-- The running-sum column ids of any partition list are strictly ascending. -/
theorem chain_colIdsFrom (db : DB) : ∀ prev, List.Chain' (· < ·) (colIdsFrom prev db) := by
  induction db with
  | nil => intro prev; simp [colIdsFrom]
  | cons p rest ih =>
    intro prev
    rw [colIdsFrom, List.chain'_cons']
    refine ⟨?_, ih (prev + p.skip + 1)⟩
    intro b hb
    exact mem_colIdsFrom_gt rest (prev + p.skip + 1) b (List.mem_of_mem_head? hb)

/-- The mutation of a found cell always completes. -/
theorem applyFound_code (stage : Option Val) (p : Partition) (rest : DB) (r0 : Nat) :
    (applyFound stage p rest r0).code = .done := by
  cases stage with
  | none =>
      simp only [applyFound]
      split
      · cases rest <;> rfl
      · rfl
  | some v => rfl

/-- The mutation of a found cell preserves the absolute column ids other than
the target column: an in-place update keeps every partition header; removing
a partition's only segment removes the partition and folds its `skip + 1`
into the following partition's skip amount, keeping every later column id. -/
theorem applyFound_frame (stage : Option Val) (p : Partition) (rest : DB) (r0 prev c : Nat)
    (hc : c ≠ prev + p.skip + 1) :
    (c ∈ colIdsFrom prev (applyFound stage p rest r0).db
      ↔ c ∈ colIdsFrom prev (p :: rest)) := by
  cases stage with
  | some v => simp [applyFound, colIdsFrom]
  | none =>
      simp only [applyFound]
      split
      · cases rest with
        | nil => simp [colIdsFrom, hc]
        | cons q qs =>
            have hseed : prev + (q.skip + p.skip + 1) + 1 = prev + p.skip + 1 + q.skip + 1 := by
              omega
            simp only [colIdsFrom, List.mem_cons, hseed]
            constructor
            · intro h; right; exact h
            · rintro (h | h)
              · exact absurd h hc
              · exact h
      · simp [colIdsFrom]

/-- The insert structure walk preserves the absolute column ids other than
the target column across every completed mutation: appending or splicing a
new partition computes its skip amount as `col - prev - 1` and rewrites the
following partition's skip amount so the running sum to every later column
is unchanged. -/
theorem insertWalk_frame (stage : Option Val) (col r0 : Nat) :
    ∀ (parts : DB) (prev : Nat), prev < col →
    (insertWalk stage col r0 prev parts).code = .done →
    ∀ c, c ≠ col →
      (c ∈ colIdsFrom prev (insertWalk stage col r0 prev parts).db
        ↔ c ∈ colIdsFrom prev parts) := by
  intro parts
  induction parts with
  | nil =>
      intro prev hlt hcode c hc
      cases stage with
      | none => simp [insertWalk]
      | some v =>
          have e1 : prev + (col - prev - 1) + 1 = col := by omega
          simp [insertWalk, colIdsFrom, e1, hc]
  | cons p rest ih =>
      intro prev hlt hcode c hc
      by_cases h1 : prev + p.skip > IDYDB_COLUMN_POSITION_MAX
      · simp only [insertWalk, if_pos h1] at hcode
        exact absurd hcode (by simp)
      · by_cases h2 : col < prev + p.skip + 1
        · cases stage with
          | none => simp only [insertWalk, if_neg h1, if_pos h2]
          | some v =>
              simp only [insertWalk, if_neg h1, if_pos h2]
              have e1 : prev + (col - prev - 1) + 1 = col := by omega
              have e2 : col + (if p.skip = 1 then 0 else p.skip - (col - prev - 1 + 1)) + 1
                  = prev + p.skip + 1 := by
                split <;> omega
              simp only [colIdsFrom, List.mem_cons, e1, e2]
              constructor
              · rintro (h | h)
                · exact absurd h hc
                · exact h
              · intro h; right; exact h
        · by_cases h3 : col = prev + p.skip + 1
          · have hc2 : c ≠ prev + p.skip + 1 := by rw [← h3]; exact hc
            cases hscan : segScan p.segs r0 with
            | found v =>
                cases v with
                | vvec d comps =>
                    by_cases hd : d = 0 ∨ d > IDYDB_MAX_VECTOR_DIM
                    · simp only [insertWalk, if_neg h1, if_neg h2, if_pos h3, hscan,
                        if_pos hd] at hcode
                      exact absurd hcode (by simp)
                    · simp only [insertWalk, if_neg h1, if_neg h2, if_pos h3, hscan,
                        if_neg hd]
                      exact applyFound_frame stage p rest r0 prev c hc2
                | vint b =>
                    simp only [insertWalk, if_neg h1, if_neg h2, if_pos h3, hscan]
                    exact applyFound_frame stage p rest r0 prev c hc2
                | vfloat b =>
                    simp only [insertWalk, if_neg h1, if_neg h2, if_pos h3, hscan]
                    exact applyFound_frame stage p rest r0 prev c hc2
                | vchar s =>
                    simp only [insertWalk, if_neg h1, if_neg h2, if_pos h3, hscan]
                    exact applyFound_frame stage p rest r0 prev c hc2
                | vbool b =>
                    simp only [insertWalk, if_neg h1, if_neg h2, if_pos h3, hscan]
                    exact applyFound_frame stage p rest r0 prev c hc2
            | absent =>
                cases stage with
                | none => simp only [insertWalk, if_neg h1, if_neg h2, if_pos h3, hscan]
                | some v =>
                    simp only [insertWalk, if_neg h1, if_neg h2, if_pos h3, hscan]
                    simp [colIdsFrom]
          · have h4 : prev + p.skip + 1 < col := by omega
            simp only [insertWalk, if_neg h1, if_neg h2, if_neg h3] at hcode ⊢
            have ihx := ih (prev + p.skip + 1) h4 hcode c hc
            simp only [colIdsFrom, List.mem_cons]
            rw [ihx]

/-- C2: after every successful `idydb_insert_at` / `idydb_delete` mutation,
the partitions are in strictly ascending absolute column-id order (the
running sum of `skip_amount + 1` recovers the column ids), and every column
id other than the mutated one recovers to exactly the same absolute value as
before: deleting a partition's only segment removes the partition and adds
its `skip + 1` to the following partition's skip, and splicing in a new
partition sets its skip to `col - prev - 1` and shrinks the following
partition's skip by `new + 1`, so the running sum to every later column is
unchanged. -/
theorem idydb_c2_partition_order (db : DB) (stage : Option Val) (col row : Nat)
    (h : (idydb_insert_at db stage col row).code = .done) :
    List.Chain' (· < ·) (dbCols (idydb_insert_at db stage col row).db)
      ∧ ∀ c, c ≠ col →
          (c ∈ dbCols (idydb_insert_at db stage col row).db ↔ c ∈ dbCols db) := by
  constructor
  · exact chain_colIdsFrom _ 0
  · intro c hc
    unfold idydb_insert_at at h ⊢
    split at h
    · exact absurd h (by simp)
    · rename_i hrange
      rw [if_neg hrange]
      have hcol : 0 < col := by
        rcases Nat.eq_zero_or_pos col with h0 | h0
        · exact absurd (Or.inl h0) hrange
        · exact h0
      by_cases hbad : stageDimsBad (normStage stage)
      · rw [if_pos hbad] at h
        exact absurd h (by simp)
      · rw [if_neg hbad] at h ⊢
        exact insertWalk_frame (normStage stage) col (row - 1) db 0 hcol h c hc

/-- Witness for C2 at a concrete input: a database holding column 1, into
which a value is inserted at column 2; column id 1 is preserved. -/
theorem idydb_c2_witness :
    List.Chain' (· < ·)
      (dbCols (idydb_insert_at [⟨0, [⟨0, .vint 1⟩]⟩] (some (.vint 2)) 2 1).db)
      ∧ (1 ∈ dbCols (idydb_insert_at [⟨0, [⟨0, .vint 1⟩]⟩] (some (.vint 2)) 2 1).db
          ↔ 1 ∈ dbCols [⟨0, [⟨0, .vint 1⟩]⟩]) :=
  ⟨(idydb_c2_partition_order [⟨0, [⟨0, .vint 1⟩]⟩] (some (.vint 2)) 2 1 (by decide)).1,
   (idydb_c2_partition_order [⟨0, [⟨0, .vint 1⟩]⟩] (some (.vint 2)) 2 1 (by decide)).2
     1 (by decide)⟩

end IdyDB

namespace IdyDB

/-- Staged value register of the handler (db.cpp 535-556): the union of
scalar values plus the dynamic vector slot, with the current `value_type`
tag. The union is modelled as separate fields; only the field matching the
tag is ever read by the retrievers. -/
structure ValueRegister where
  value_type : Nat
  int_value : Nat
  float_value : Nat
  char_value : List Nat
  bool_value : Bool
  vector_value : Option (List Nat)
  vector_dims : Nat
deriving DecidableEq, Repr

/-- Typed retriever for i32 (db.cpp 1587): the staged int when the register
holds an i32, else 0. -/
def idydb_retrieve_value_int (r : ValueRegister) : Nat :=
  if r.value_type = IDYDB_INTEGER then r.int_value else 0

/-- Typed retriever for f32 (db.cpp 1588): the staged float when the register
holds an f32, else 0.0f (bit pattern 0). -/
def idydb_retrieve_value_float (r : ValueRegister) : Nat :=
  if r.value_type = IDYDB_FLOAT then r.float_value else 0

/-- Typed retriever for strings (db.cpp 1589): a pointer to the staged char
buffer when the register holds a string, else NULL (`none`). -/
def idydb_retrieve_value_char (r : ValueRegister) : Option (List Nat) :=
  if r.value_type = IDYDB_CHAR then some r.char_value else none

/-- Typed retriever for booleans (db.cpp 1590): the staged boolean when the
register holds one, else false. -/
def idydb_retrieve_value_bool (r : ValueRegister) : Bool :=
  if r.value_type = IDYDB_BOOL then r.bool_value else false

/-- Typed retriever for vectors (db.cpp 1592-1600): the staged vector pointer
and `*out_dims` when the register holds a vector, else NULL with `*out_dims`
set to 0. -/
def idydb_retrieve_value_vector (r : ValueRegister) : Option (List Nat) × Nat :=
  if r.value_type = IDYDB_VECTOR then (r.vector_value, r.vector_dims) else (none, 0)

/-- Retrieved-type accessor (db.cpp 1602): the register's current tag. -/
def idydb_retrieve_value_type (r : ValueRegister) : Nat := r.value_type

/-- C10: a typed retriever whose kind differs from the staged value's type
returns a fixed neutral default, never an error: `retrieve_int` returns 0,
`retrieve_float` returns 0.0f, `retrieve_char` returns NULL, `retrieve_bool`
returns false, and `retrieve_vector` returns NULL with `*out_dims` 0. -/
theorem idydb_c10_retriever_defaults (r : ValueRegister) :
    (r.value_type ≠ IDYDB_INTEGER → idydb_retrieve_value_int r = 0)
      ∧ (r.value_type ≠ IDYDB_FLOAT → idydb_retrieve_value_float r = 0)
      ∧ (r.value_type ≠ IDYDB_CHAR → idydb_retrieve_value_char r = none)
      ∧ (r.value_type ≠ IDYDB_BOOL → idydb_retrieve_value_bool r = false)
      ∧ (r.value_type ≠ IDYDB_VECTOR → idydb_retrieve_value_vector r = (none, 0)) := by
  refine ⟨?_, ?_, ?_, ?_, ?_⟩ <;> intro hne <;>
    simp [idydb_retrieve_value_int, idydb_retrieve_value_float, idydb_retrieve_value_char,
      idydb_retrieve_value_bool, idydb_retrieve_value_vector, hne]

/-- Witness for C10 at a concrete register: a staged null (type `IDYDB_NULL`)
with stale field contents; every typed retriever returns its default. -/
theorem idydb_c10_witness :
    idydb_retrieve_value_int ⟨10, 7, 9, [1], true, some [2], 1⟩ = 0
      ∧ idydb_retrieve_value_float ⟨10, 7, 9, [1], true, some [2], 1⟩ = 0
      ∧ idydb_retrieve_value_char ⟨10, 7, 9, [1], true, some [2], 1⟩ = none
      ∧ idydb_retrieve_value_bool ⟨10, 7, 9, [1], true, some [2], 1⟩ = false
      ∧ idydb_retrieve_value_vector ⟨10, 7, 9, [1], true, some [2], 1⟩ = (none, 0) :=
  ⟨(idydb_c10_retriever_defaults ⟨10, 7, 9, [1], true, some [2], 1⟩).1 (by decide),
   (idydb_c10_retriever_defaults ⟨10, 7, 9, [1], true, some [2], 1⟩).2.1 (by decide),
   (idydb_c10_retriever_defaults ⟨10, 7, 9, [1], true, some [2], 1⟩).2.2.1 (by decide),
   (idydb_c10_retriever_defaults ⟨10, 7, 9, [1], true, some [2], 1⟩).2.2.2.1 (by decide),
   (idydb_c10_retriever_defaults ⟨10, 7, 9, [1], true, some [2], 1⟩).2.2.2.2 (by decide)⟩

end IdyDB

namespace IdyDB

/-- Filter operators (db.h filter enum; db.cpp 2782-2815). -/
inductive FilterOp where
  | eq
  | neq
  | gt
  | gte
  | lt
  | lte
  | isNull
  | isNotNull
deriving DecidableEq, Repr

/-- Signed value of an i32 bit pattern, for the C `int` comparisons of the
filter evaluator. -/
def i32ToInt (bits : Nat) : Int :=
  if bits < 2 ^ 31 then (bits : Int) else (bits : Int) - 2 ^ 32

/-- Filter term (db.h: column, wanted type code, operator, compare value).
The value union is modelled as separate fields; the float compare value is
kept as an f32 bit pattern; a NULL string value is the empty list (the
source substitutes "" at db.cpp 3006). -/
structure FilterTerm where
  column : Nat
  type : Nat
  op : FilterOp
  i : Int
  fbits : Nat
  b : Bool
  s : List Nat
deriving DecidableEq, Repr

/-- Integer comparison of the filter evaluator (db.cpp 2782-2793). -/
def idydb_filter_cmp_int (a : Int) (op : FilterOp) (b : Int) : Bool :=
  match op with
  | .eq => a = b
  | .neq => a ≠ b
  | .gt => a > b
  | .gte => a ≥ b
  | .lt => a < b
  | .lte => a ≤ b
  | _ => false

/-- Boolean comparison of the filter evaluator (db.cpp 2808-2815). -/
def idydb_filter_cmp_bool (a : Bool) (op : FilterOp) (b : Bool) : Bool :=
  match op with
  | .eq => a = b
  | .neq => a ≠ b
  | _ => false

/-- NULL-equality normalization at the head of the term scan (db.cpp
2834-2838): `= NULL` becomes is-null and `≠ NULL` becomes is-not-null. -/
def idydb_filter_norm_op (t : FilterTerm) : FilterOp :=
  if t.op = .eq ∧ t.type = IDYDB_NULL then .isNull
  else if t.op = .neq ∧ t.type = IDYDB_NULL then .isNotNull
  else t.op

/-- Guarded mask write of the term scan: every assignment is protected by the
row-domain check `row_api < mask_len` (db.cpp 2926-2927). -/
def termMaskSet (mask : List Bool) (rowApi : Nat) (b : Bool) : List Bool :=
  if rowApi < mask.length then mask.set rowApi b else mask

/-- Mask update for one visited segment of the target column (db.cpp
2929-3063): is-null marks the row non-matching, is-not-null matching; a
value operator writes the comparison result only when the wanted type
matches the stored kind (strings only under `=` / `≠`, vectors only under
the null-ness operators); any other combination leaves the row at its
initial state. `cmpFloat` is the IEEE f32 comparison, left abstract. -/
def termSegUpdate (cmpFloat : FilterOp → Nat → Nat → Bool) (t : FilterTerm)
    (op : FilterOp) (mask : List Bool) (sg : Segment) : List Bool :=
  match sg.val with
  | .vbool v =>
      if op = .isNull then termMaskSet mask (sg.rowPos + 1) false
      else if op = .isNotNull then termMaskSet mask (sg.rowPos + 1) true
      else if t.type = IDYDB_BOOL then
        termMaskSet mask (sg.rowPos + 1) (idydb_filter_cmp_bool v op t.b)
      else mask
  | .vint bits =>
      if op = .isNull then termMaskSet mask (sg.rowPos + 1) false
      else if op = .isNotNull then termMaskSet mask (sg.rowPos + 1) true
      else if t.type = IDYDB_INTEGER then
        termMaskSet mask (sg.rowPos + 1) (idydb_filter_cmp_int (i32ToInt bits) op t.i)
      else mask
  | .vfloat bits =>
      if op = .isNull then termMaskSet mask (sg.rowPos + 1) false
      else if op = .isNotNull then termMaskSet mask (sg.rowPos + 1) true
      else if t.type = IDYDB_FLOAT then
        termMaskSet mask (sg.rowPos + 1) (cmpFloat op bits t.fbits)
      else mask
  | .vchar s =>
      if op = .isNull then termMaskSet mask (sg.rowPos + 1) false
      else if op = .isNotNull then termMaskSet mask (sg.rowPos + 1) true
      else if t.type = IDYDB_CHAR then
        if op = .eq then termMaskSet mask (sg.rowPos + 1) (decide (t.s = s))
        else if op = .neq then termMaskSet mask (sg.rowPos + 1) (!(decide (t.s = s)))
        else mask
      else mask
  | .vvec d c =>
      if op = .isNull then termMaskSet mask (sg.rowPos + 1) false
      else if op = .isNotNull then termMaskSet mask (sg.rowPos + 1) true
      else mask

/-- Segment walk of the term scan: segments of the target column update the
mask, others are skipped to advance the cursor (db.cpp 2883-3063). -/
def termScanSegs (cmpFloat : FilterOp → Nat → Nat → Bool) (t : FilterTerm)
    (op : FilterOp) (inTarget : Bool) : List Segment → List Bool → List Bool
  | [], mask => mask
  | sg :: rest, mask =>
      termScanSegs cmpFloat t op inTarget rest
        (if inTarget then termSegUpdate cmpFloat t op mask sg else mask)

/-- Partition walk of the term scan: a single forward pass over the whole
file maintaining the running column id (db.cpp 2849-3071). -/
def termScanParts (cmpFloat : FilterOp → Nat → Nat → Bool) (t : FilterTerm)
    (op : FilterOp) : Nat → DB → List Bool → List Bool
  | _, [], mask => mask
  | prev, p :: rest, mask =>
      termScanParts cmpFloat t op (prev + p.skip + 1) rest
        (termScanSegs cmpFloat t op (decide (prev + p.skip + 1 = t.column)) p.segs mask)

/-- Builds the per-term mask (db.cpp `idydb_filter_build_term_mask`,
2817-3074): rejects a zero mask length or a column id of 0 or out of range;
normalizes NULL equality; initialises the mask to all-true for is-null terms
and all-false otherwise, forces `mask[0] = false` (rows are 1-based,
db.cpp 2840-2842), then runs the single forward scan. -/
def idydb_filter_build_term_mask (cmpFloat : FilterOp → Nat → Nat → Bool)
    (t : FilterTerm) (db : DB) (maskLen : Nat) : Option (List Bool) :=
  if maskLen = 0 then none
  else if t.column = 0 then none
  else if t.column - 1 > IDYDB_COLUMN_POSITION_MAX then none
  else
    some (termScanParts cmpFloat t (idydb_filter_norm_op t) 0 db
      ((List.replicate maskLen (decide (idydb_filter_norm_op t = .isNull))).set 0 false))

/-- AND-fold of the per-term masks (db.cpp 3090-3099). -/
def allowedFold (cmpFloat : FilterOp → Nat → Nat → Bool) (db : DB) (maskLen : Nat) :
    List FilterTerm → List Bool → Option (List Bool)
  | [], a => some a
  | t :: ts, a =>
      match idydb_filter_build_term_mask cmpFloat t db maskLen with
      | none => none
      | some m => allowedFold cmpFloat db maskLen ts (a.zipWith (· && ·) m)

/-- Builds the overall allowed mask (db.cpp `idydb_filter_build_allowed_mask`,
3076-3103): all-true with `allowed[0] = false`, then the pointwise AND of
every term mask; an empty term list leaves the initial mask. -/
def idydb_filter_build_allowed_mask (cmpFloat : FilterOp → Nat → Nat → Bool)
    (terms : List FilterTerm) (db : DB) (maskLen : Nat) : Option (List Bool) :=
  if maskLen = 0 then none
  else allowedFold cmpFloat db maskLen terms ((List.replicate maskLen true).set 0 false)

/-- Reading a list of booleans at an index other than the one just set is
unchanged. -/
theorem getD_set_ne (l : List Bool) (i j : Nat) (b : Bool) (h : j ≠ i) :
    (l.set i b).getD j false = l.getD j false := by
  induction l generalizing i j with
  | nil => rfl
  | cons x xs ih =>
      cases i with
      | zero =>
          cases j with
          | zero => exact absurd rfl h
          | succ j => simp [List.set]
      | succ i =>
          cases j with
          | zero => simp [List.set]
          | succ j =>
              simp only [List.set, List.getD_cons_succ]
              exact ih i j (fun hh => h (by rw [hh]))

/-- Reading a replicated list. -/
theorem getD_replicate (n : Nat) (b : Bool) (i : Nat) :
    (List.replicate n b).getD i false = if i < n then b else false := by
  induction n generalizing i with
  | zero => simp [List.getD]
  | succ n ih =>
      cases i with
      | zero => simp [List.replicate]
      | succ i =>
          simp only [List.replicate, List.getD_cons_succ, ih]
          by_cases h : i < n
          · rw [if_pos h, if_pos (by omega)]
          · rw [if_neg h, if_neg (by omega)]

/-- Entries of the initial term mask: index 0 is false, in-domain indices
carry the initialisation bit, out-of-domain reads default to false. -/
theorem initMask_getD (n : Nat) (b : Bool) (i : Nat) :
    ((List.replicate n b).set 0 false).getD i false
      = if i = 0 then false else if i < n then b else false := by
  by_cases h0 : i = 0
  · subst h0
    cases n with
    | zero => simp [List.getD]
    | succ n => simp [List.replicate, List.set]
  · rw [getD_set_ne _ _ _ _ h0, getD_replicate, if_neg h0]

/-- The guarded mask write preserves every other index. -/
theorem termMaskSet_getD_ne (mask : List Bool) (r i : Nat) (b : Bool) (h : i ≠ r) :
    (termMaskSet mask r b).getD i false = mask.getD i false := by
  unfold termMaskSet
  split
  · exact getD_set_ne mask r i b h
  · rfl

/-- The guarded mask write preserves the mask length. -/
theorem termMaskSet_length (mask : List Bool) (r : Nat) (b : Bool) :
    (termMaskSet mask r b).length = mask.length := by
  unfold termMaskSet
  split <;> simp

/-- One segment update touches only the mask entry of its own row. -/
theorem termSegUpdate_getD_ne (cmpFloat : FilterOp → Nat → Nat → Bool)
    (t : FilterTerm) (op : FilterOp) (mask : List Bool) (sg : Segment) (i : Nat)
    (h : i ≠ sg.rowPos + 1) :
    (termSegUpdate cmpFloat t op mask sg).getD i false = mask.getD i false := by
  unfold termSegUpdate
  cases sg.val <;> split_ifs <;> first
    | rfl
    | exact termMaskSet_getD_ne mask (sg.rowPos + 1) i _ h

/-- One segment update preserves the mask length. -/
theorem termSegUpdate_length (cmpFloat : FilterOp → Nat → Nat → Bool)
    (t : FilterTerm) (op : FilterOp) (mask : List Bool) (sg : Segment) :
    (termSegUpdate cmpFloat t op mask sg).length = mask.length := by
  unfold termSegUpdate
  cases sg.val <;> split_ifs <;> first
    | rfl
    | exact termMaskSet_length mask (sg.rowPos + 1) _

/-- The segment walk touches only the mask entries of the rows it visits in
the target column. -/
theorem termScanSegs_getD_ne (cmpFloat : FilterOp → Nat → Nat → Bool)
    (t : FilterTerm) (op : FilterOp) (inTarget : Bool) :
    ∀ (segs : List Segment) (mask : List Bool) (i : Nat),
      (∀ sg ∈ segs, i ≠ sg.rowPos + 1) →
      (termScanSegs cmpFloat t op inTarget segs mask).getD i false = mask.getD i false := by
  intro segs
  induction segs with
  | nil => intro mask i _; rfl
  | cons sg rest ih =>
      intro mask i h
      simp only [termScanSegs]
      rw [ih _ i (fun s hs => h s (List.mem_cons_of_mem sg hs))]
      cases inTarget with
      | false => rfl
      | true => exact termSegUpdate_getD_ne cmpFloat t op mask sg i (h sg (List.mem_cons_self sg rest))

/-- The segment walk preserves the mask length. -/
theorem termScanSegs_length (cmpFloat : FilterOp → Nat → Nat → Bool)
    (t : FilterTerm) (op : FilterOp) (inTarget : Bool) :
    ∀ (segs : List Segment) (mask : List Bool),
      (termScanSegs cmpFloat t op inTarget segs mask).length = mask.length := by
  intro segs
  induction segs with
  | nil => intro mask; rfl
  | cons sg rest ih =>
      intro mask
      simp only [termScanSegs]
      rw [ih]
      cases inTarget with
      | false => rfl
      | true => exact termSegUpdate_length cmpFloat t op mask sg

/-- Outside the target column the segment walk leaves the mask untouched. -/
theorem termScanSegs_false (cmpFloat : FilterOp → Nat → Nat → Bool)
    (t : FilterTerm) (op : FilterOp) :
    ∀ (segs : List Segment) (mask : List Bool),
      termScanSegs cmpFloat t op false segs mask = mask := by
  intro segs
  induction segs with
  | nil => intro mask; rfl
  | cons sg rest ih =>
      intro mask
      simp only [termScanSegs, Bool.false_eq_true, if_false]
      exact ih mask

/-- The partition walk touches only the mask entries of rows stored under
the target column. -/
theorem termScanParts_getD_ne (cmpFloat : FilterOp → Nat → Nat → Bool)
    (t : FilterTerm) (op : FilterOp) :
    ∀ (parts : DB) (prev : Nat) (mask : List Bool) (i : Nat),
      i ∉ rowsOfColFrom prev parts t.column →
      (termScanParts cmpFloat t op prev parts mask).getD i false = mask.getD i false := by
  intro parts
  induction parts with
  | nil => intro prev mask i _; rfl
  | cons p rest ih =>
      intro prev mask i h
      simp only [rowsOfColFrom, List.mem_append] at h
      push_neg at h
      simp only [termScanParts]
      rw [ih _ _ i h.2]
      by_cases htgt : prev + p.skip + 1 = t.column
      · rw [if_pos htgt] at h
        refine termScanSegs_getD_ne cmpFloat t op _ p.segs mask i ?_
        intro sg hs hrow
        exact h.1 (by rw [hrow]; exact List.mem_map_of_mem _ hs)
      · have hfalse : decide (prev + p.skip + 1 = t.column) = false := by
          simp [htgt]
        rw [hfalse, termScanSegs_false]

/-- The partition walk preserves the mask length. -/
theorem termScanParts_length (cmpFloat : FilterOp → Nat → Nat → Bool)
    (t : FilterTerm) (op : FilterOp) :
    ∀ (parts : DB) (prev : Nat) (mask : List Bool),
      (termScanParts cmpFloat t op prev parts mask).length = mask.length := by
  intro parts
  induction parts with
  | nil => intro prev mask; rfl
  | cons p rest ih =>
      intro prev mask
      simp only [termScanParts]
      rw [ih, termScanSegs_length]

end IdyDB

namespace IdyDB

/-- Every built term mask has the requested length. -/
theorem build_term_mask_length (cmpFloat : FilterOp → Nat → Nat → Bool)
    (t : FilterTerm) (db : DB) (maskLen : Nat) (m : List Bool)
    (h : idydb_filter_build_term_mask cmpFloat t db maskLen = some m) :
    m.length = maskLen := by
  unfold idydb_filter_build_term_mask at h
  split at h
  · exact absurd h (by simp)
  · split at h
    · exact absurd h (by simp)
    · split at h
      · exact absurd h (by simp)
      · have := Option.some.inj h
        rw [← this, termScanParts_length]
        simp

/-- Rows stored in any column are 1-based, so index 0 is never visited. -/
theorem rowsOfColFrom_pos : ∀ (parts : DB) (prev c i : Nat),
    i ∈ rowsOfColFrom prev parts c → 0 < i := by
  intro parts
  induction parts with
  | nil => intro prev c i h; simp [rowsOfColFrom] at h
  | cons p rest ih =>
      intro prev c i h
      simp only [rowsOfColFrom, List.mem_append] at h
      rcases h with h | h
      · split at h
        · simp only [List.mem_map] at h
          obtain ⟨sg, _, hrow⟩ := h
          omega
        · simp at h
      · exact ih _ c i h

/-- A column absent from the database stores no rows. -/
theorem rowsOfColFrom_of_not_mem : ∀ (parts : DB) (prev c : Nat),
    c ∉ colIdsFrom prev parts → rowsOfColFrom prev parts c = [] := by
  intro parts
  induction parts with
  | nil => intro prev c _; rfl
  | cons p rest ih =>
      intro prev c h
      simp only [colIdsFrom, List.mem_cons] at h
      push_neg at h
      simp only [rowsOfColFrom]
      rw [if_neg (fun hh => h.1 hh.symm), ih _ c h.2]
      rfl

/-- Every built term mask is false at index 0. -/
theorem build_term_mask_getD_zero (cmpFloat : FilterOp → Nat → Nat → Bool)
    (t : FilterTerm) (db : DB) (maskLen : Nat) (m : List Bool)
    (h : idydb_filter_build_term_mask cmpFloat t db maskLen = some m) :
    m.getD 0 false = false := by
  unfold idydb_filter_build_term_mask at h
  split at h
  · exact absurd h (by simp)
  · split at h
    · exact absurd h (by simp)
    · split at h
      · exact absurd h (by simp)
      · have := Option.some.inj h
        rw [← this]
        rw [termScanParts_getD_ne cmpFloat t _ db 0 _ 0
          (fun hmem => by
            have := rowsOfColFrom_pos db 0 t.column 0 hmem
            omega)]
        rw [initMask_getD]
        simp

/-- Pointwise reading of the AND of two masks of full length. -/
theorem zipWith_and_getD (a m : List Bool) (i : Nat) (ha : i < a.length)
    (hm : i < m.length) :
    (a.zipWith (· && ·) m).getD i false = (a.getD i false && m.getD i false) := by
  induction a generalizing m i with
  | nil => simp at ha
  | cons x xs ih =>
      cases m with
      | nil => simp at hm
      | cons y ys =>
          cases i with
          | zero => simp [List.zipWith]
          | succ i =>
              simp only [List.zipWith, List.getD_cons_succ]
              exact ih ys i (by simpa using ha) (by simpa using hm)

/-- Length of the AND of two masks. -/
theorem zipWith_and_length (a m : List Bool) :
    (a.zipWith (· && ·) m).length = min a.length m.length := by
  simp

/-- The AND-fold produces, for every surviving index, the conjunction of the
accumulator with every term mask built along the way. -/
theorem allowedFold_spec (cmpFloat : FilterOp → Nat → Nat → Bool)
    (db : DB) (maskLen : Nat) :
    ∀ (ts : List FilterTerm) (a l : List Bool), a.length = maskLen →
      allowedFold cmpFloat db maskLen ts a = some l →
      ∃ ms, List.Forall₂
          (fun tt mm => idydb_filter_build_term_mask cmpFloat tt db maskLen = some mm) ts ms
        ∧ l.length = maskLen
        ∧ ∀ i, i < maskLen →
            l.getD i false = (a.getD i false && ms.all (fun mm => mm.getD i false)) := by
  intro ts
  induction ts with
  | nil =>
      intro a l ha h
      refine ⟨[], List.Forall₂.nil, ?_, ?_⟩
      · have := Option.some.inj h
        rw [← this, ha]
      · intro i hi
        have := Option.some.inj h
        rw [← this]
        simp
  | cons t ts ih =>
      intro a l ha h
      simp only [allowedFold] at h
      cases hb : idydb_filter_build_term_mask cmpFloat t db maskLen with
      | none => rw [hb] at h; exact absurd h (by simp)
      | some m =>
          rw [hb] at h
          have hmlen := build_term_mask_length cmpFloat t db maskLen m hb
          have hzip : (a.zipWith (· && ·) m).length = maskLen := by
            rw [zipWith_and_length, ha, hmlen]; omega
          obtain ⟨ms, hms, hlen, hspec⟩ := ih (a.zipWith (· && ·) m) l hzip h
          refine ⟨m :: ms, List.Forall₂.cons hb hms, hlen, ?_⟩
          intro i hi
          rw [hspec i hi, zipWith_and_getD a m i (by omega) (by omega)]
          simp [Bool.and_assoc]

/-- C4: the filter evaluator mask discipline. For every built per-term mask:
`mask[0]` is false; every in-domain row never visited in the term's column
keeps the initialisation bit — true exactly for is-null terms (after the
NULL-equality normalisation) — so unvisited rows remain matching for
is-null and non-matching otherwise; a term naming a column absent from the
file yields the pure initialisation: all-false, except is-null terms which
are all-true over the finite row domain with row 0 excluded. The overall
allowed mask of a non-empty term list is the pointwise AND of the per-term
masks. -/
theorem idydb_c4_filter_mask_properties (cmpFloat : FilterOp → Nat → Nat → Bool)
    (db : DB) (maskLen : Nat) :
    (∀ t m, idydb_filter_build_term_mask cmpFloat t db maskLen = some m →
        m.getD 0 false = false
        ∧ (∀ i, 0 < i → i < maskLen → i ∉ rowsOfCol db t.column →
            m.getD i false = decide (idydb_filter_norm_op t = .isNull))
        ∧ (t.column ∉ dbCols db → ∀ i, i < maskLen →
            m.getD i false
              = (decide (i ≠ 0) && decide (idydb_filter_norm_op t = .isNull))))
    ∧ (∀ terms a, terms ≠ [] →
        idydb_filter_build_allowed_mask cmpFloat terms db maskLen = some a →
        ∃ ms, List.Forall₂
            (fun tt mm => idydb_filter_build_term_mask cmpFloat tt db maskLen = some mm)
            terms ms
          ∧ ∀ i, i < maskLen →
              a.getD i false = ms.all (fun mm => mm.getD i false)) := by
  have hterm : ∀ t m, idydb_filter_build_term_mask cmpFloat t db maskLen = some m →
      m.getD 0 false = false
      ∧ (∀ i, 0 < i → i < maskLen → i ∉ rowsOfCol db t.column →
          m.getD i false = decide (idydb_filter_norm_op t = .isNull))
      ∧ (t.column ∉ dbCols db → ∀ i, i < maskLen →
          m.getD i false
            = (decide (i ≠ 0) && decide (idydb_filter_norm_op t = .isNull))) := by
    intro t m h
    refine ⟨build_term_mask_getD_zero cmpFloat t db maskLen m h, ?_, ?_⟩
    · intro i hi0 hilen hnot
      unfold idydb_filter_build_term_mask at h
      split at h
      · exact absurd h (by simp)
      · split at h
        · exact absurd h (by simp)
        · split at h
          · exact absurd h (by simp)
          · have := Option.some.inj h
            rw [← this]
            rw [termScanParts_getD_ne cmpFloat t _ db 0 _ i hnot]
            rw [initMask_getD]
            rw [if_neg (by omega), if_pos hilen]
    · intro hcol i hilen
      have hrows : rowsOfCol db t.column = [] :=
        rowsOfColFrom_of_not_mem db 0 t.column hcol
      unfold idydb_filter_build_term_mask at h
      split at h
      · exact absurd h (by simp)
      · split at h
        · exact absurd h (by simp)
        · split at h
          · exact absurd h (by simp)
          · have := Option.some.inj h
            rw [← this]
            rw [termScanParts_getD_ne cmpFloat t _ db 0 _ i
              (by rw [rowsOfColFrom_of_not_mem db 0 t.column hcol]; simp)]
            rw [initMask_getD]
            by_cases h0 : i = 0
            · subst h0; simp
            · rw [if_neg h0, if_pos hilen]
              simp [h0]
  refine ⟨hterm, ?_⟩
  intro terms a hne h
  unfold idydb_filter_build_allowed_mask at h
  split at h
  · exact absurd h (by simp)
  · rename_i hlen0
    have hinit : ((List.replicate maskLen true).set 0 false).length = maskLen := by simp
    obtain ⟨ms, hms, _, hspec⟩ := allowedFold_spec cmpFloat db maskLen terms _ a hinit h
    refine ⟨ms, hms, ?_⟩
    intro i hi
    rw [hspec i hi, initMask_getD]
    by_cases h0 : i = 0
    · subst h0
      have hmsne : ms ≠ [] := by
        cases hms with
        | nil => exact absurd rfl hne
        | cons hh _ => simp
      cases ms with
      | nil => exact absurd rfl hmsne
      | cons m0 mrest =>
          cases hms with
          | cons hh _ =>
              have hz := build_term_mask_getD_zero cmpFloat _ db maskLen m0 hh
              simp only [List.all_cons, hz, Bool.false_and, Bool.and_false]
    · rw [if_neg h0, if_pos hi]
      simp

/-- Witness for C4 at a concrete input: an is-null term over the absent
column 2 of a one-cell database, with mask length 3. -/
theorem idydb_c4_witness :
    (∃ m, idydb_filter_build_term_mask (fun _ _ _ => false)
        ⟨2, 10, .eq, 0, 0, false, []⟩ [⟨0, [⟨0, .vint 5⟩]⟩] 3 = some m
      ∧ m.getD 0 false = false
      ∧ m.getD 1 false = decide (idydb_filter_norm_op ⟨2, 10, .eq, 0, 0, false, []⟩ = .isNull)) :=
  ⟨[false, true, true], by decide,
   ((idydb_c4_filter_mask_properties (fun _ _ _ => false) [⟨0, [⟨0, .vint 5⟩]⟩] 3).1
      ⟨2, 10, .eq, 0, 0, false, []⟩ [false, true, true] (by decide)).1,
   ((idydb_c4_filter_mask_properties (fun _ _ _ => false) [⟨0, [⟨0, .vint 5⟩]⟩] 3).1
      ⟨2, 10, .eq, 0, 0, false, []⟩ [false, true, true] (by decide)).2.1
     1 (by decide) (by decide) (by decide)⟩

end IdyDB

namespace IdyDB

/-- Allowed-mask length used by the filtered kNN entry point:
`IDYDB_ROW_POSITION_MAX + 2` (db.cpp 3371). -/
def IDYDB_ALLOWED_LEN : Nat := IDYDB_ROW_POSITION_MAX + 2

/-- Comparison of top-k slot scores, where `none` is the `-INFINITY`
sentinel of the empty slot (db.cpp 3134). -/
def scoreLt : Option Int → Option Int → Bool
  | none, none => false
  | none, some _ => true
  | some _, none => false
  | some a, some b => a < b

/-- Linear search for the worst slot (db.cpp 3309-3313): scan for the first
strictly smaller score, returning its index and score. -/
def worstGo : List (Nat × Option Int) → Nat → Nat → Option Int → Nat × Option Int
  | [], _, best, bestSc => (best, bestSc)
  | s :: r, i, best, bestSc =>
      if scoreLt s.2 bestSc then worstGo r (i + 1) i s.2
      else worstGo r (i + 1) best bestSc

/-- Writes a slot at an index, leaving the list unchanged out of range. -/
def replaceAt : List (Nat × Option Int) → Nat → (Nat × Option Int) → List (Nat × Option Int)
  | [], _, _ => []
  | _ :: rest, 0, x => x :: rest
  | y :: rest, n + 1, x => y :: replaceAt rest n x

/-- Top-k maintenance for one scored candidate (db.cpp 3309-3317): find the
worst slot and replace it only on strict improvement. -/
def knnUpdate (slots : List (Nat × Option Int)) (row : Nat) (sc : Int) :
    List (Nat × Option Int) :=
  match slots with
  | [] => []
  | s0 :: rest =>
      let w := worstGo rest 1 0 s0.2
      if scoreLt w.2 (some sc) then replaceAt (s0 :: rest) w.1 (row, some sc)
      else s0 :: rest

/-- Segment walk of the kNN scan (db.cpp 3210-3324): only VECTOR segments of
the target column with matching dims are candidates; with a mask supplied, a
row at or beyond `allowedLen` (the separate length argument of the C
function) or with a false mask entry is skipped without scoring (db.cpp
3260-3272); otherwise the candidate is scored and offered to the top-k
buffer. `scoreOf` abstracts the float cosine/L2 scoring of the payload. -/
def knnScanSegs (vcol dims : Nat) (scoreOf : List Nat → Int)
    (allowed : Option (List Bool)) (allowedLen : Nat) (abs : Nat) :
    List Segment → List (Nat × Option Int) → List (Nat × Option Int)
  | [], slots => slots
  | sg :: rest, slots =>
      knnScanSegs vcol dims scoreOf allowed allowedLen abs rest
        (match sg.val with
         | .vvec d c =>
             if abs = vcol ∧ d = dims then
               match allowed with
               | some al =>
                   if sg.rowPos + 1 ≥ allowedLen ∨ al.getD (sg.rowPos + 1) false = false then
                     slots
                   else knnUpdate slots (sg.rowPos + 1) (scoreOf c)
               | none => knnUpdate slots (sg.rowPos + 1) (scoreOf c)
             else slots
         | _ => slots)

/-- Partition walk of the kNN scan (db.cpp 3148-3332), maintaining the
running column id. -/
def knnScanParts (vcol dims : Nat) (scoreOf : List Nat → Int)
    (allowed : Option (List Bool)) (allowedLen : Nat) :
    Nat → DB → List (Nat × Option Int) → List (Nat × Option Int)
  | _, [], slots => slots
  | prev, p :: rest, slots =>
      knnScanParts vcol dims scoreOf allowed allowedLen (prev + p.skip + 1) rest
        (knnScanSegs vcol dims scoreOf allowed allowedLen (prev + p.skip + 1) p.segs slots)

/-- Single-pass kNN scan over the vector column (db.cpp
`idydb_knn_search_vector_column_internal`, 3107-3347): argument validation
(dims in range, k nonzero, column id valid) then the scan starting from k
empty slots `(row = 0, score = -INFINITY)`. `none` models the -1 error
return. -/
def idydb_knn_search_vector_column_internal (db : DB) (vcol dims k : Nat)
    (scoreOf : List Nat → Int) (allowed : Option (List Bool)) (allowedLen : Nat) :
    Option (List (Nat × Option Int)) :=
  if dims = 0 ∨ dims > IDYDB_MAX_VECTOR_DIM ∨ k = 0 then none
  else if vcol = 0 ∨ vcol - 1 > IDYDB_COLUMN_POSITION_MAX then none
  else some (knnScanParts vcol dims scoreOf allowed allowedLen 0 db
    (List.replicate k (0, none)))

/-- Set of rows the caller receives: the slots with a nonzero row id. The
bubble sort at db.cpp 3334-3342 only permutes the slots (descending by
score, empties last) and the returned count is the number of nonzero rows,
so the returned row set is exactly this list. -/
def knnRows (slots : List (Nat × Option Int)) : List Nat :=
  (slots.filter (fun s => s.1 != 0)).map (fun s => s.1)

/-- Filtered kNN search (db.cpp `idydb_knn_search_vector_column_filtered`,
3360-3389): with a non-empty term list the allowed mask of length
`IDYDB_ALLOWED_LEN` is built (failure propagates the -1 error), then the
masked scan runs; an empty term list scans unmasked. -/
def idydb_knn_search_vector_column_filtered (cmpFloat : FilterOp → Nat → Nat → Bool)
    (scoreOf : List Nat → Int) (db : DB) (vcol dims k : Nat)
    (terms : List FilterTerm) : Option (List Nat) :=
  if terms = [] then
    (idydb_knn_search_vector_column_internal db vcol dims k scoreOf none
      IDYDB_ALLOWED_LEN).map knnRows
  else
    match idydb_filter_build_allowed_mask cmpFloat terms db IDYDB_ALLOWED_LEN with
    | none => none
    | some al =>
        (idydb_knn_search_vector_column_internal db vcol dims k scoreOf (some al)
          IDYDB_ALLOWED_LEN).map knnRows

/-- Slot invariant under a mask: a slot is empty or holds a row inside the
mask domain whose mask entry is true. -/
def SlotOk (al : List Bool) (allowedLen : Nat) (s : Nat × Option Int) : Prop :=
  s.1 = 0 ∨ (s.1 < allowedLen ∧ al.getD s.1 false = true)

/-- Replacing a slot only introduces the written slot. -/
theorem replaceAt_mem : ∀ (l : List (Nat × Option Int)) (n : Nat) (x z : Nat × Option Int),
    z ∈ replaceAt l n x → z = x ∨ z ∈ l := by
  intro l
  induction l with
  | nil => intro n x z h; simp [replaceAt] at h
  | cons y rest ih =>
      intro n x z h
      cases n with
      | zero =>
          simp only [replaceAt, List.mem_cons] at h
          rcases h with h | h
          · exact Or.inl h
          · exact Or.inr (List.mem_cons_of_mem y h)
      | succ n =>
          simp only [replaceAt, List.mem_cons] at h
          rcases h with h | h
          · exact Or.inr (by rw [h]; exact List.mem_cons_self y rest)
          · rcases ih n x z h with h2 | h2
            · exact Or.inl h2
            · exact Or.inr (List.mem_cons_of_mem y h2)

/-- The top-k update only introduces the offered candidate. -/
theorem knnUpdate_mem (slots : List (Nat × Option Int)) (row : Nat) (sc : Int)
    (z : Nat × Option Int) (h : z ∈ knnUpdate slots row sc) :
    z = (row, some sc) ∨ z ∈ slots := by
  cases slots with
  | nil => simp [knnUpdate] at h
  | cons s0 rest =>
      simp only [knnUpdate] at h
      split at h
      · exact replaceAt_mem _ _ _ z h
      · exact Or.inr h

/-- The segment walk preserves the slot invariant: every slot it adds passed
the mask check. -/
theorem knnScanSegs_inv (vcol dims : Nat) (scoreOf : List Nat → Int)
    (al : List Bool) (allowedLen : Nat) (abs : Nat) :
    ∀ (segs : List Segment) (slots : List (Nat × Option Int)),
      (∀ s ∈ slots, SlotOk al allowedLen s) →
      ∀ s ∈ knnScanSegs vcol dims scoreOf (some al) allowedLen abs segs slots,
        SlotOk al allowedLen s := by
  intro segs
  induction segs with
  | nil => intro slots hinv s hs; exact hinv s hs
  | cons sg rest ih =>
      intro slots hinv s hs
      simp only [knnScanSegs] at hs
      refine ih _ ?_ s hs
      intro z hz
      cases hv : sg.val with
      | vvec d c =>
          rw [hv] at hz
          simp only at hz
          by_cases htgt : abs = vcol ∧ d = dims
          · rw [if_pos htgt] at hz
            by_cases hmask : sg.rowPos + 1 ≥ allowedLen
                ∨ al.getD (sg.rowPos + 1) false = false
            · rw [if_pos hmask] at hz
              exact hinv z hz
            · rw [if_neg hmask] at hz
              rcases knnUpdate_mem slots (sg.rowPos + 1) (scoreOf c) z hz with h2 | h2
              · push_neg at hmask
                refine Or.inr ?_
                rw [h2]
                refine ⟨by omega, ?_⟩
                simp only
                cases hgd : al.getD (sg.rowPos + 1) false with
                | true => rfl
                | false => exact absurd hgd hmask.2
              · exact hinv z h2
          · rw [if_neg htgt] at hz
            exact hinv z hz
      | vint b => rw [hv] at hz; exact hinv z hz
      | vfloat b => rw [hv] at hz; exact hinv z hz
      | vchar s2 => rw [hv] at hz; exact hinv z hz
      | vbool b => rw [hv] at hz; exact hinv z hz

/-- The partition walk preserves the slot invariant. -/
theorem knnScanParts_inv (vcol dims : Nat) (scoreOf : List Nat → Int)
    (al : List Bool) (allowedLen : Nat) :
    ∀ (parts : DB) (prev : Nat) (slots : List (Nat × Option Int)),
      (∀ s ∈ slots, SlotOk al allowedLen s) →
      ∀ s ∈ knnScanParts vcol dims scoreOf (some al) allowedLen prev parts slots,
        SlotOk al allowedLen s := by
  intro parts
  induction parts with
  | nil => intro prev slots hinv s hs; exact hinv s hs
  | cons p rest ih =>
      intro prev slots hinv s hs
      simp only [knnScanParts] at hs
      exact ih _ _ (knnScanSegs_inv vcol dims scoreOf al allowedLen _ p.segs slots hinv) s hs

/-- C3: filter-kNN consistency. Every row returned by the filtered kNN
search over a non-empty filter lies strictly inside the allowed-mask domain
and its mask entry is true: rows whose mask entry is false, or whose row id
lies outside the mask domain, are never scored and never appear in the
results. The float scoring function is an abstract parameter; the property
holds for every scoring. -/
theorem idydb_c3_knn_filtered_subset (cmpFloat : FilterOp → Nat → Nat → Bool)
    (scoreOf : List Nat → Int) (db : DB) (vcol dims k : Nat)
    (terms : List FilterTerm) (rows : List Nat) (r : Nat)
    (hterms : terms ≠ [])
    (hres : idydb_knn_search_vector_column_filtered cmpFloat scoreOf db vcol dims k terms
      = some rows)
    (hr : r ∈ rows) :
    ∃ al, idydb_filter_build_allowed_mask cmpFloat terms db IDYDB_ALLOWED_LEN = some al
      ∧ r < IDYDB_ALLOWED_LEN ∧ al.getD r false = true := by
  unfold idydb_knn_search_vector_column_filtered at hres
  rw [if_neg hterms] at hres
  cases hb : idydb_filter_build_allowed_mask cmpFloat terms db IDYDB_ALLOWED_LEN with
  | none => rw [hb] at hres; exact absurd hres (by simp)
  | some al =>
      rw [hb] at hres
      have hres1 : Option.map knnRows
          (if dims = 0 ∨ dims > IDYDB_MAX_VECTOR_DIM ∨ k = 0 then none
           else if vcol = 0 ∨ vcol - 1 > IDYDB_COLUMN_POSITION_MAX then none
           else some (knnScanParts vcol dims scoreOf (some al) IDYDB_ALLOWED_LEN 0 db
             (List.replicate k (0, none)))) = some rows := hres
      by_cases hA : dims = 0 ∨ dims > IDYDB_MAX_VECTOR_DIM ∨ k = 0
      · rw [if_pos hA] at hres1
        exact absurd hres1 (by simp)
      · rw [if_neg hA] at hres1
        by_cases hB : vcol = 0 ∨ vcol - 1 > IDYDB_COLUMN_POSITION_MAX
        · rw [if_pos hB] at hres1
          exact absurd hres1 (by simp)
        · rw [if_neg hB] at hres1
          have hres2 : some (knnRows (knnScanParts vcol dims scoreOf (some al)
              IDYDB_ALLOWED_LEN 0 db (List.replicate k (0, none)))) = some rows := hres1
          have hrows := Option.some.inj hres2
          rw [← hrows] at hr
          unfold knnRows at hr
          simp only [List.mem_map, List.mem_filter] at hr
          obtain ⟨s, ⟨hsmem, hsnz⟩, hsr⟩ := hr
          have hinit : ∀ z ∈ List.replicate k ((0 : Nat), (none : Option Int)),
              SlotOk al IDYDB_ALLOWED_LEN z := by
            intro z hz
            have := List.eq_of_mem_replicate hz
            rw [this]
            exact Or.inl rfl
          have hok := knnScanParts_inv vcol dims scoreOf al IDYDB_ALLOWED_LEN db 0 _
            hinit s hsmem
          rcases hok with h0 | hok2
          · rw [h0] at hsnz
            simp at hsnz
          · refine ⟨al, rfl, ?_, ?_⟩
            · rw [← hsr]; exact hok2.1
            · rw [← hsr]; exact hok2.2

end IdyDB

namespace IdyDB

/-- Witness for C3 at a concrete input: one vector cell at (1, 1), an
is-null filter over the absent column 2 (mask all-true except row 0), k = 1;
the returned row 1 is inside the mask domain with a true entry. -/
theorem idydb_c3_witness :
    ∃ al, idydb_filter_build_allowed_mask (fun _ _ _ => false)
        [⟨2, 10, .eq, 0, 0, false, []⟩] [⟨0, [⟨0, .vvec 1 [0]⟩]⟩] IDYDB_ALLOWED_LEN = some al
      ∧ 1 < IDYDB_ALLOWED_LEN ∧ al.getD 1 false = true :=
  idydb_c3_knn_filtered_subset (fun _ _ _ => false) (fun _ => 0)
    [⟨0, [⟨0, .vvec 1 [0]⟩]⟩] 1 1 1 [⟨2, 10, .eq, 0, 0, false, []⟩] [1] 1
    (by decide) (by decide) (by decide)

end IdyDB

namespace IdyDB

/-- Unfiltered kNN entry point (db.cpp `idydb_knn_search_vector_column`,
3349-3358): the internal scan with no mask and allowed length 0. -/
def idydb_knn_search_vector_column (db : DB) (vcol dims k : Nat)
    (scoreOf : List Nat → Int) : Option (List Nat) :=
  (idydb_knn_search_vector_column_internal db vcol dims k scoreOf none 0).map knnRows

/-- Text lookup for one kNN result row in `idydb_rag_query_topk`
(db.cpp 3572-3607): a null cell or a non-string cell yields a NULL text
(`none`, the row still counts); any other extract failure aborts the query
with -1 (`Except.error`). -/
def ragTextFor (db : DB) (tcol row : Nat) : Except Unit (Option (List Nat)) :=
  match idydb_read_at db tcol row with
  | .null => .ok none
  | .done (.vchar s) => .ok (some s)
  | .done _ => .ok none
  | _ => .error ()

/-- Top-k with texts (db.cpp `idydb_rag_query_topk`, 3555-3610): the kNN
count is returned unchanged when it is not positive (0 means no hits, -1 is
an error); otherwise each result row's text is looked up. -/
def idydb_rag_query_topk (db : DB) (tcol vcol dims k : Nat)
    (scoreOf : List Nat → Int) : Except Unit (Nat × List (Option (List Nat))) :=
  match idydb_knn_search_vector_column db vcol dims k scoreOf with
  | none => .error ()
  | some rows =>
      if rows = [] then .ok (0, [])
      else
        match rows.mapM (ragTextFor db tcol) with
        | .error e => .error e
        | .ok texts => .ok (rows.length, texts)

/-- Filtered top-k with texts (db.cpp `idydb_rag_query_topk_filtered`,
3612-3667). -/
def idydb_rag_query_topk_filtered (cmpFloat : FilterOp → Nat → Nat → Bool)
    (db : DB) (tcol vcol dims k : Nat) (scoreOf : List Nat → Int)
    (terms : List FilterTerm) : Except Unit (Nat × List (Option (List Nat))) :=
  match idydb_knn_search_vector_column_filtered cmpFloat scoreOf db vcol dims k terms with
  | none => .error ()
  | some rows =>
      if rows = [] then .ok (0, [])
      else
        match rows.mapM (ragTextFor db tcol) with
        | .error e => .error e
        | .ok texts => .ok (rows.length, texts)

/-- Separator joined between context snippets: the literal bytes of
"\n---\n" (db.cpp 3808). -/
def sepBytes : List Nat := [10, 45, 45, 45, 10]

/-- Context assembly loop (db.cpp 3814-3826): NULL texts are skipped
entirely (including their separator); each text is truncated at the
`max_chars` byte boundary; a separator that would overflow `max_chars`
stops the loop. `written` is the running byte count. -/
def ctxJoin : List (Option (List Nat)) → Nat → Nat → List Nat
  | [], _, _ => []
  | t :: rest, maxChars, written =>
      match t with
      | none => ctxJoin rest maxChars written
      | some s =>
          let len := if 0 < maxChars ∧ written + s.length > maxChars
            then maxChars - written else s.length
          if rest = [] then s.take len
          else if 0 < maxChars ∧ written + len + sepBytes.length > maxChars then s.take len
          else s.take len ++ sepBytes ++ ctxJoin rest maxChars (written + len + sepBytes.length)

/-- Return code of the context queries: `IDYDB_DONE` or `IDYDB_ERROR`. -/
inductive CtxRes where
  | done
  | error
deriving DecidableEq, Repr

/-- Context query (db.cpp `idydb_rag_query_context`, 3791-3832): a negative
top-k result returns the error code, zero hits return the done code, and in
both cases `*out_context` is never assigned (modelled `none`: the caller's
pointer retains its prior value); with one or more hits the joined context
buffer is allocated and assigned. -/
def idydb_rag_query_context (db : DB) (tcol vcol dims k : Nat)
    (scoreOf : List Nat → Int) (maxChars : Nat) : CtxRes × Option (List Nat) :=
  match idydb_rag_query_topk db tcol vcol dims k scoreOf with
  | .error _ => (.error, none)
  | .ok (0, _) => (.done, none)
  | .ok (_ + 1, texts) => (.done, some (ctxJoin texts maxChars 0))

/-- Filtered context query (db.cpp `idydb_rag_query_context_filtered`,
3834-3879). -/
def idydb_rag_query_context_filtered (cmpFloat : FilterOp → Nat → Nat → Bool)
    (db : DB) (tcol vcol dims k : Nat) (scoreOf : List Nat → Int)
    (terms : List FilterTerm) (maxChars : Nat) : CtxRes × Option (List Nat) :=
  match idydb_rag_query_topk_filtered cmpFloat db tcol vcol dims k scoreOf terms with
  | .error _ => (.error, none)
  | .ok (0, _) => (.done, none)
  | .ok (_ + 1, texts) => (.done, some (ctxJoin texts maxChars 0))

/-- C9: context-assignment discipline of `idydb_rag_query_context` and its
filtered variant. When the top-k query reports zero kNN hits the context
query returns the success code done and never assigns the output (the
caller's pointer keeps its prior value, modelled as `none`); with one or
more hits it returns done and assigns the freshly built, NUL-terminated
join of the texts. -/
theorem idydb_c9_context_assignment (db : DB) (tcol vcol dims k maxChars : Nat)
    (scoreOf : List Nat → Int) (cmpFloat : FilterOp → Nat → Nat → Bool)
    (terms : List FilterTerm) :
    (∀ ts, idydb_rag_query_topk db tcol vcol dims k scoreOf = .ok (0, ts) →
        idydb_rag_query_context db tcol vcol dims k scoreOf maxChars = (.done, none))
    ∧ (∀ n ts, idydb_rag_query_topk db tcol vcol dims k scoreOf = .ok (n, ts) → 0 < n →
        idydb_rag_query_context db tcol vcol dims k scoreOf maxChars
          = (.done, some (ctxJoin ts maxChars 0)))
    ∧ (∀ ts, idydb_rag_query_topk_filtered cmpFloat db tcol vcol dims k scoreOf terms
          = .ok (0, ts) →
        idydb_rag_query_context_filtered cmpFloat db tcol vcol dims k scoreOf terms maxChars
          = (.done, none))
    ∧ (∀ n ts, idydb_rag_query_topk_filtered cmpFloat db tcol vcol dims k scoreOf terms
          = .ok (n, ts) → 0 < n →
        idydb_rag_query_context_filtered cmpFloat db tcol vcol dims k scoreOf terms maxChars
          = (.done, some (ctxJoin ts maxChars 0))) := by
  refine ⟨?_, ?_, ?_, ?_⟩
  · intro ts h
    unfold idydb_rag_query_context
    rw [h]
  · intro n ts h hn
    unfold idydb_rag_query_context
    rw [h]
    cases n with
    | zero => omega
    | succ m => rfl
  · intro ts h
    unfold idydb_rag_query_context_filtered
    rw [h]
  · intro n ts h hn
    unfold idydb_rag_query_context_filtered
    rw [h]
    cases n with
    | zero => omega
    | succ m => rfl

/-- Witness for C9 at concrete inputs: on the empty database the context
query returns done with the output untouched; on a database with a text at
(1, 1) and a vector at (2, 1) it returns done with the joined text
assigned. -/
theorem idydb_c9_witness :
    idydb_rag_query_context [] 1 2 1 1 (fun _ => 0) 0 = (.done, none)
      ∧ idydb_rag_query_context [⟨0, [⟨0, .vchar [104, 105]⟩]⟩, ⟨0, [⟨0, .vvec 1 [0]⟩]⟩]
          1 2 1 1 (fun _ => 0) 0
        = (.done, some (ctxJoin [some [104, 105]] 0 0)) :=
  ⟨(idydb_c9_context_assignment [] 1 2 1 1 0 (fun _ => 0) (fun _ _ _ => false) []).1
      [] rfl,
   (idydb_c9_context_assignment [⟨0, [⟨0, .vchar [104, 105]⟩]⟩, ⟨0, [⟨0, .vvec 1 [0]⟩]⟩]
      1 2 1 1 0 (fun _ => 0) (fun _ _ _ => false) []).2.1
      1 [some [104, 105]] rfl (by decide)⟩

end IdyDB

namespace IdyDB

/-- Lower PBKDF2 iteration bound (db.cpp 207). -/
def IDYDB_ENC_MIN_PBKDF2_ITER : Nat := 10000

/-- Upper PBKDF2 iteration bound (db.cpp 208). -/
def IDYDB_ENC_MAX_PBKDF2_ITER : Nat := 5000000

/-- Default PBKDF2 iteration count (db.cpp 204). -/
def IDYDB_ENC_DEFAULT_PBKDF2_ITER : Nat := 200000

/-- Iteration-count validation (db.cpp `idydb_crypto_iter_ok`, 231-233):
inside the inclusive range `[10000, 5000000]`. -/
def idydb_crypto_iter_ok (iter : Nat) : Bool :=
  decide (IDYDB_ENC_MIN_PBKDF2_ITER ≤ iter) && decide (iter ≤ IDYDB_ENC_MAX_PBKDF2_ITER)

/-- Whether key derivation proceeds (db.cpp `idydb_crypto_derive_key_pbkdf2`,
235-252): a zero or out-of-range iteration count is rejected before PBKDF2
runs. -/
def idydb_crypto_derive_key_pbkdf2 (iter : Nat) : Bool :=
  !(iter == 0) && idydb_crypto_iter_ok iter

/-- Outcome of the encrypted open path: whether the open succeeded and
whether a key was derived along the way. -/
structure EncOpenOut where
  ok : Bool
  keyDerived : Bool
deriving DecidableEq, Repr

/-- Iteration handling of the encrypted-at-rest open path
(db.cpp `idydb_open_with_options`, 1282-1383), reduced to the order of its
checks. For an encrypted backing container (`isEnc`), decryption (353-441)
checks magic and version (`preOk`), then the header's iteration count, then
the ciphertext length (`lenOk`), and only then derives the key; every later
failure cause (tag mismatch, stream setup) is abstracted as `postOk`. For a
plaintext or new backing, a read-only open of nonempty plaintext fails with
migration-required (1297-1303); otherwise the option iteration count — with
0 replaced by the default 200000 (1343) — is checked (1344-1348), random
salt generation (`randOk`, 1352) precedes derivation (1358), and later
failures are `postOk`. -/
def idydb_open_encrypted_iter_path (isEnc preOk : Bool) (headerIter : Nat)
    (lenOk ro plainNonempty : Bool) (optIter : Nat) (randOk postOk : Bool) : EncOpenOut :=
  if isEnc then
    if !preOk then ⟨false, false⟩
    else if !(idydb_crypto_iter_ok headerIter) then ⟨false, false⟩
    else if !lenOk then ⟨false, false⟩
    else if !(idydb_crypto_derive_key_pbkdf2 headerIter) then ⟨false, false⟩
    else ⟨postOk, true⟩
  else
    if ro && plainNonempty then ⟨false, false⟩
    else
      let iter := if optIter = 0 then IDYDB_ENC_DEFAULT_PBKDF2_ITER else optIter
      if !(idydb_crypto_iter_ok iter) then ⟨false, false⟩
      else if !randOk then ⟨false, false⟩
      else if !(idydb_crypto_derive_key_pbkdf2 iter) then ⟨false, false⟩
      else ⟨postOk, true⟩

/-- C5 counterexample: the claim states that for every iteration value below
10000 the open fails and no key is derived, but the option value 0 (below
10000) is a sentinel meaning use-the-default: a writable encrypted open of a
new container with `pbkdf2_iter = 0` succeeds and derives a key (at the
default 200000 iterations, db.cpp 1343). -/
theorem idydb_c5_counterexample :
    idydb_open_encrypted_iter_path false true 0 true false false 0 true true = ⟨true, true⟩
      ∧ 0 < IDYDB_ENC_MIN_PBKDF2_ITER := by
  decide

/-- C5 (amended): the boolean `idydb_crypto_iter_ok` holds exactly on the
inclusive range `[10000, 5000000]`; an out-of-range count never derives a
key; an encrypted container whose header iteration count is out of range
fails the open with no key derived; and a *nonzero* option iteration count
out of range fails the migration/creation open with no key derived — the
option value 0 alone is replaced by the default 200000 before the check. -/
theorem idydb_c5_iter_bounds (iter headerIter optIter : Nat)
    (preOk lenOk ro plainNonempty randOk postOk : Bool) :
    (idydb_crypto_iter_ok iter = false
        ↔ (iter < IDYDB_ENC_MIN_PBKDF2_ITER ∨ IDYDB_ENC_MAX_PBKDF2_ITER < iter))
    ∧ (idydb_crypto_iter_ok iter = false → idydb_crypto_derive_key_pbkdf2 iter = false)
    ∧ (idydb_crypto_iter_ok headerIter = false →
        idydb_open_encrypted_iter_path true preOk headerIter lenOk ro plainNonempty
          optIter randOk postOk = ⟨false, false⟩)
    ∧ (optIter ≠ 0 → idydb_crypto_iter_ok optIter = false →
        idydb_open_encrypted_iter_path false preOk headerIter lenOk ro plainNonempty
          optIter randOk postOk = ⟨false, false⟩) := by
  refine ⟨?_, ?_, ?_, ?_⟩
  · unfold idydb_crypto_iter_ok
    constructor
    · intro h
      rcases Bool.and_eq_false_iff.mp h with h2 | h2 <;> [left; right] <;>
        simpa using of_decide_eq_false h2
    · intro h
      rcases h with h | h <;> simp [decide_eq_false_iff_not] <;> omega
  · intro h
    unfold idydb_crypto_derive_key_pbkdf2
    rw [h]
    simp
  · intro h
    unfold idydb_open_encrypted_iter_path
    cases preOk with
    | false => rfl
    | true =>
        rw [h]
        rfl
  · intro hnz h
    unfold idydb_open_encrypted_iter_path
    simp only [Bool.if_true_left]
    cases ro with
    | true =>
        cases plainNonempty with
        | true => rfl
        | false =>
            rw [if_neg hnz, h]
            rfl
    | false =>
        rw [if_neg hnz, h]
        rfl

/-- Witness for C5 at a concrete input: header iteration count 5000 (below
the minimum) fails the open with no key derived, and 5000 never derives a
key. -/
theorem idydb_c5_witness :
    idydb_open_encrypted_iter_path true true 5000 true false false 0 true true
        = ⟨false, false⟩
      ∧ idydb_crypto_derive_key_pbkdf2 5000 = false :=
  ⟨(idydb_c5_iter_bounds 5000 5000 0 true true false false true true).2.2.1 (by decide),
   (idydb_c5_iter_bounds 5000 5000 0 true true false false true true).2.1 (by decide)⟩

/-- Observable event of the decrypt routine: a chunk of decrypted plaintext
written to the working stream, or the GCM tag verification. -/
inductive DecEvent where
  | emit (chunk : List Nat)
  | verifyTag (ok : Bool)
deriving DecidableEq, Repr

/-- Event trace of `idydb_crypto_decrypt_locked_file_to_stream` (db.cpp
404-441): the decrypt loop (416-425) writes every decrypted chunk to the
plaintext working stream via `fwrite`, and only after the loop is the GCM
tag set and verified at `EVP_DecryptFinal_ex` (427-433). -/
def idydb_crypto_decrypt_trace (chunks : List (List Nat)) (tagOk : Bool) : List DecEvent :=
  chunks.map DecEvent.emit ++ [DecEvent.verifyTag tagOk]

/-- Success of the decrypt routine: tag verification over the 52-byte AAD
prefix and the ciphertext, plus the plaintext-length check (db.cpp 437),
must both pass. -/
def idydb_crypto_decrypt_ok (tagOk lenOk : Bool) : Bool := tagOk && lenOk

/-- Working stream as exposed by `idydb_open_with_options` (db.cpp
1305-1316): on decrypt failure the plaintext stream is closed and the open
returns the decrypt_failed error, so the caller never receives it (`none`);
on success the handle operates on the decrypted bytes. -/
def idydb_open_working_stream (chunks : List (List Nat)) (tagOk lenOk : Bool) :
    Option (List Nat) :=
  if idydb_crypto_decrypt_ok tagOk lenOk then some chunks.flatten else none

/-- C6 counterexample: the decrypt routine does NOT verify the tag before
emitting plaintext to the working stream. At a one-chunk ciphertext whose
tag verification fails, the very first event of the trace is the emission of
the decrypted chunk, and the (failing) tag verification is the last event. -/
theorem idydb_c6_counterexample :
    (idydb_crypto_decrypt_trace [[42]] false).head? = some (.emit [42])
      ∧ idydb_crypto_decrypt_trace [[42]] false = [.emit [42], .verifyTag false] := by
  decide

/-- C6 (amended): although decrypted bytes reach the in-memory working
stream before the tag check, the caller of open observes plaintext only
when tag verification (and the length check) succeeded: whenever the open
exposes a working stream, the tag verified. -/
theorem idydb_c6_tag_gates_caller (chunks : List (List Nat)) (tagOk lenOk : Bool)
    (s : List Nat) (h : idydb_open_working_stream chunks tagOk lenOk = some s) :
    tagOk = true ∧ lenOk = true := by
  unfold idydb_open_working_stream at h
  split at h
  · rename_i hc
    unfold idydb_crypto_decrypt_ok at hc
    exact Bool.and_eq_true_iff.mp hc
  · exact absurd h (by simp)

/-- Witness for C6 at a concrete input: a successfully opened encrypted
container implies its tag verified. -/
theorem idydb_c6_witness : (true : Bool) = true ∧ (true : Bool) = true :=
  idydb_c6_tag_gates_caller [[1, 2]] true true [1, 2] (by decide)

end IdyDB
